import Mathlib

/-!
Verification of the job-json-validator core (src/main.py) against its
natural-language specification.

Strings are modelled as `List Char` (Python `str` is a sequence of Unicode
code points).  The single compiled regex of the source,

    MARKDOWN_LINK_PATTERN = re.compile(r"\[([^\]]+)\]\((https?://[^)]+)\)")

is embedded as an executable matcher.  Because the two character classes
`[^\]]+` and `[^)]+` exclude exactly the character that must follow them,
greedy matching is deterministic: at a given start position the pattern
matches iff the text has `[`, a non-empty run of non-`]` characters, `]`,
`(`, `http://` or `https://`, a non-empty run of non-`)` characters, and
`)`; no backtracking can produce a different match.  `re.search` returns
the match at the leftmost start position; `re.sub` rewrites the
non-overlapping matches left to right without rescanning replacements.
-/

/-- Convert a Lean string literal to the `List Char` representation. -/
def S (s : String) : List Char := s.toList

/-- Test whether `p` is an initial segment of `l` (used for Python `in`). -/
def leadsWith : List Char → List Char → Bool
  | [], _ => true
  | _ :: _, [] => false
  | a :: as, b :: bs => a = b && leadsWith as bs

/-- Python substring containment `needle in hay`. -/
def hasSub (needle : List Char) : List Char → Bool
  | [] => decide (needle = [])
  | c :: t => leadsWith needle (c :: t) || hasSub needle t

/-- The guard of the HTML branch in `fix_value`:
`"<a" in value or "<p" in value or "<li" in value`. -/
def htmlLooking (v : List Char) : Bool :=
  hasSub (S "<a") v || hasSub (S "<p") v || hasSub (S "<li") v

/-- Split a list at the first occurrence of `c`: returns the (possibly empty)
segment before and the segment after that occurrence, or `none` when `c`
does not occur.  This is the deterministic matcher for `[^c]*c`. -/
def splitAtFirst (c : Char) : List Char → Option (List Char × List Char)
  | [] => none
  | x :: t =>
    if x = c then some ([], t)
    else (splitAtFirst c t).map (fun p => (x :: p.1, p.2))

/-- Match the literal `https?://` at the front of the text, returning the
matched scheme and the remaining text.  `https?` is greedy on `s` but both
alternatives are disjoint here, so the two patterns below are exhaustive. -/
def stripScheme : List Char → Option (List Char × List Char)
  | 'h' :: 't' :: 't' :: 'p' :: 's' :: ':' :: '/' :: '/' :: rest =>
      some (S "https://", rest)
  | 'h' :: 't' :: 't' :: 'p' :: ':' :: '/' :: '/' :: rest =>
      some (S "http://", rest)
  | _ => none

/-- Attempt to match `\[([^\]]+)\]\((https?://[^)]+)\)` anchored at the start
of the text.  On success, returns (group 1, group 2, text after the match). -/
def tryMatchAt : List Char → Option (List Char × List Char × List Char)
  | '[' :: t =>
    match splitAtFirst ']' t with
    | some (lab, rest1) =>
      if lab = [] then none
      else
        match rest1 with
        | '(' :: rest2 =>
          match stripScheme rest2 with
          | some (scheme, rest3) =>
            match splitAtFirst ')' rest3 with
            | some (upart, rest4) =>
              if upart = [] then none
              else some (lab, scheme ++ upart, rest4)
            | none => none
          | none => none
        | _ => none
    | none => none
  | _ => none

/-- `re.search` for the markdown-link pattern: scan start positions left to
right; on success return (text before the match, group 1, group 2, text
after the match). -/
def mdSearch : List Char → Option (List Char × List Char × List Char × List Char)
  | [] => none
  | c :: t =>
    match tryMatchAt (c :: t) with
    | some (lab, u, rest) => some ([], lab, u, rest)
    | none =>
      match mdSearch t with
      | some (pre, lab, u, rest) => some (c :: pre, lab, u, rest)
      | none => none

/-- `bool(MARKDOWN_LINK_PATTERN.search(s))`. -/
def hasMd (s : List Char) : Bool := (mdSearch s).isSome

/-- Source `extract_plain_url`: return group 2 of the first match, or the
text itself when there is no match. -/
def extract_plain_url (text : List Char) : List Char :=
  match mdSearch text with
  | some (_, _, u, _) => u
  | none => text

/-- The replacement template of `fix_html_links`:
`<a href="{url}" target="_blank" rel="noopener noreferrer">{label}</a>`. -/
def anchorRepl (lab u : List Char) : List Char :=
  S "<a href=\"" ++ u ++ S "\" target=\"_blank\" rel=\"noopener noreferrer\">"
    ++ lab ++ S "</a>"

/-- `re.sub` driver: rewrite each non-overlapping match left to right,
leaving non-matching text in place.  The fuel argument only bounds the
recursion; `fuel ≥ length of the text` always suffices because every match
consumes at least one character. -/
def mdSubFuel (repl : List Char → List Char → List Char) :
    Nat → List Char → List Char
  | _, [] => []
  | 0, l => l
  | fuel + 1, c :: t =>
    match tryMatchAt (c :: t) with
    | some (lab, u, rest) => repl lab u ++ mdSubFuel repl fuel rest
    | none => c :: mdSubFuel repl fuel t

/-- Source `fix_html_links`: `MARKDOWN_LINK_PATTERN.sub(replacer, html)`
with the anchor-tag replacer. -/
def fix_html_links (html : List Char) : List Char :=
  mdSubFuel anchorRepl html.length html

/-- The string branch of source `fix_value`: first, when the string looks
like HTML, rewrite markdown links to anchor tags; then, when the markdown
pattern still matches, return only the first match's URL; otherwise return
the string unchanged. -/
def normalizeStr (s : List Char) : List Char :=
  let v := if htmlLooking s then fix_html_links s else s
  if hasMd v then extract_plain_url v else v

/-!
The JSON values the endpoint works on.  Python's decoded JSON values are
strings, numbers, booleans, `None`, lists and dicts; the mutual inductive
below mirrors that shape (arrays and objects as their own list-like types
so that all recursion stays structural).  Numeric leaves are carried as
`Int`; `fix_value` and `contains_markdown` treat every non-str/list/dict
value uniformly as an unstructured leaf, so the choice of numeric carrier is
irrelevant to every property proved here.
-/

mutual
inductive Json where
  | str : List Char → Json
  | num : Int → Json
  | bool : Bool → Json
  | null : Json
  | arr : JsonArr → Json
  | obj : JsonObj → Json

inductive JsonArr where
  | nil : JsonArr
  | cons : Json → JsonArr → JsonArr

inductive JsonObj where
  | nil : JsonObj
  | cons : List Char → Json → JsonObj → JsonObj
end

/-- Number of elements of a JSON array. -/
def arrLen : JsonArr → Nat
  | .nil => 0
  | .cons _ t => arrLen t + 1

/-- Element of a JSON array at an index (`none` when out of range). -/
def arrGet : JsonArr → Nat → Option Json
  | .nil, _ => none
  | .cons v _, 0 => some v
  | .cons _ t, n + 1 => arrGet t n

/-- The ordered list of keys of a JSON object. -/
def keysOf : JsonObj → List (List Char)
  | .nil => []
  | .cons k _ t => k :: keysOf t

/-- First value bound to a key in a JSON object (Python dicts have unique
keys, so first-match lookup models `payload["jobs"]`). -/
def lookupKey : JsonObj → List Char → Option Json
  | .nil, _ => none
  | .cons k v t, key => if k = key then some v else lookupKey t key

mutual
/-- Source `fix_value`: recursively walk the JSON value, apply the string
normalization to every string leaf, rebuild lists and dicts (keys kept
as they are), and return every other leaf unchanged. -/
def fix_value : Json → Json
  | .str s => .str (normalizeStr s)
  | .num n => .num n
  | .bool b => .bool b
  | .null => .null
  | .arr l => .arr (fixArr l)
  | .obj kvs => .obj (fixObj kvs)

/-- The `[fix_value(v) for v in value]` branch of `fix_value`. -/
def fixArr : JsonArr → JsonArr
  | .nil => .nil
  | .cons v t => .cons (fix_value v) (fixArr t)

/-- The `{k: fix_value(v) for k, v in value.items()}` branch of
`fix_value`. -/
def fixObj : JsonObj → JsonObj
  | .nil => .nil
  | .cons k v t => .cons k (fix_value v) (fixObj t)
end

mutual
/-- Source `contains_markdown`: true when some string value anywhere in
the JSON value matches the markdown-link pattern.  Dict keys are not
scanned (the source iterates `value.values()`). -/
def contains_markdown : Json → Bool
  | .str s => hasMd s
  | .arr l => cmArr l
  | .obj kvs => cmObj kvs
  | _ => false

/-- The `any(contains_markdown(v) for v in value)` branch. -/
def cmArr : JsonArr → Bool
  | .nil => false
  | .cons v t => contains_markdown v || cmArr t

/-- The `any(contains_markdown(v) for v in value.values())` branch. -/
def cmObj : JsonObj → Bool
  | .nil => false
  | .cons _ v t => contains_markdown v || cmObj t
end

/-- The structure test of the endpoint:
`"jobs" in payload and isinstance(payload["jobs"], list)`. -/
def jobsOk (payload : JsonObj) : Bool :=
  match lookupKey payload (S "jobs") with
  | some (Json.arr _) => true
  | _ => false

/-- Source endpoint `validate_and_fix_job_json` (POST /validate-job-json).
`payload` is the decoded request body (a dict); an `HTTPException` is
modelled as `Except.error (status_code, detail)`.  The final
`json.dumps(fixed_payload, ensure_ascii=False)` guard of the source is a
try/except that can only fail on values that are not representable as
JSON; every value of type `Json` is representable, so that branch is
omitted from the model (it never fires). -/
def validate_and_fix_job_json (payload : JsonObj) :
    Except (Nat × List Char) Json :=
  if jobsOk payload then
    let fixed := fix_value (Json.obj payload)
    if contains_markdown fixed then
      .error (422, S "Markdown URL detected after auto-fix. JSON rejected.")
    else
      .ok (Json.obj (.cons (S "status") (.str (S "ok"))
        (.cons (S "fixed_json") fixed .nil)))
  else
    .error (422, S "Invalid JSON: missing 'jobs' array")

/-- A listing whose `acf.job_link` neither starts with `https://` nor is
free of markup characters; the spec predicts two warnings for it. -/
def badLinkPayload : JsonObj :=
  .cons (S "jobs")
    (Json.arr (.cons (Json.obj
      (.cons (S "group_slug") (Json.str (S "g1"))
        (.cons (S "zh") (Json.obj
          (.cons (S "slug") (Json.str (S "eng"))
            (.cons (S "acf") (Json.obj
              (.cons (S "job_link") (Json.str (S "ftp://bad[x]<y>")) .nil))
              .nil)))
          (.cons (S "en") (Json.obj
            (.cons (S "slug") (Json.str (S "eng-en"))
              (.cons (S "acf") (Json.obj
                (.cons (S "job_link") (Json.str (S "ftp://bad[x]<y>")) .nil))
                .nil)))
            .nil))))
      .nil))
    .nil

/-- Recognizer for the endpoint's residual-markdown rejection response. -/
def isMdError : Except (Nat × List Char) Json → Bool
  | .error (_, m) =>
      m == S "Markdown URL detected after auto-fix. JSON rejected."
  | _ => false

/-! Lemmas about the pattern matcher. -/

theorem splitAtFirst_eq {c : Char} :
    ∀ {l a b : List Char}, splitAtFirst c l = some (a, b) →
      l = a ++ c :: b ∧ c ∉ a := by
  intro l
  induction l with
  | nil => intro a b h; simp [splitAtFirst] at h
  | cons x t ih =>
    intro a b h
    rw [splitAtFirst] at h
    by_cases hx : x = c
    · rw [if_pos hx] at h
      simp only [Option.some.injEq, Prod.mk.injEq] at h
      obtain ⟨rfl, rfl⟩ := h
      simp [hx]
    · rw [if_neg hx] at h
      cases hh : splitAtFirst c t with
      | none => rw [hh] at h; simp at h
      | some p =>
        obtain ⟨a', b'⟩ := p
        rw [hh] at h
        simp only [Option.map_some', Option.some.injEq, Prod.mk.injEq] at h
        obtain ⟨rfl, rfl⟩ := h
        obtain ⟨he, hm⟩ := ih hh
        refine ⟨by rw [he]; simp, ?_⟩
        intro hmem
        rcases List.mem_cons.mp hmem with h1 | h1
        · exact hx h1.symm
        · exact hm h1

theorem splitAtFirst_of_notMem {c : Char} :
    ∀ {a : List Char} (b : List Char), c ∉ a →
      splitAtFirst c (a ++ c :: b) = some (a, b) := by
  intro a
  induction a with
  | nil => intro b _; simp [splitAtFirst]
  | cons x t ih =>
    intro b h
    have hx : x ≠ c := fun hc => h (by simp [hc])
    have ht : c ∉ t := fun hc => h (by simp [hc])
    simp only [List.cons_append, splitAtFirst, if_neg hx, List.append_eq,
      ih b ht, Option.map_some']

theorem stripScheme_eq {l sch r : List Char}
    (h : stripScheme l = some (sch, r)) :
    l = sch ++ r ∧ (sch = S "http://" ∨ sch = S "https://") := by
  unfold stripScheme at h
  split at h
  · simp only [Option.some.injEq, Prod.mk.injEq] at h
    obtain ⟨rfl, rfl⟩ := h
    exact ⟨rfl, Or.inr rfl⟩
  · simp only [Option.some.injEq, Prod.mk.injEq] at h
    obtain ⟨rfl, rfl⟩ := h
    exact ⟨rfl, Or.inl rfl⟩
  · exact absurd h (by simp)

theorem tryMatchAt_some :
    ∀ {l lab u rest : List Char}, tryMatchAt l = some (lab, u, rest) →
      l = '[' :: (lab ++ ']' :: '(' :: (u ++ ')' :: rest)) ∧
        lab ≠ [] ∧ ']' ∉ lab ∧ ')' ∉ u := by
  intro l lab u rest h
  unfold tryMatchAt at h
  split at h
  rotate_left
  · exact absurd h (by simp)
  next t =>
    cases h1 : splitAtFirst ']' t with
    | none => rw [h1] at h; simp at h
    | some p =>
      obtain ⟨lab', rest1⟩ := p
      rw [h1] at h
      simp only at h
      by_cases hlab : lab' = []
      · rw [if_pos hlab] at h; exact absurd h (by simp)
      · rw [if_neg hlab] at h
        obtain ⟨hteq, hnotmem⟩ := splitAtFirst_eq h1
        split at h
        rotate_left
        · exact absurd h (by simp)
        next rest2 =>
          cases h2 : stripScheme rest2 with
          | none => rw [h2] at h; simp at h
          | some q =>
            obtain ⟨scheme, rest3⟩ := q
            rw [h2] at h
            simp only at h
            cases h3 : splitAtFirst ')' rest3 with
            | none => rw [h3] at h; simp at h
            | some w =>
              obtain ⟨upart, rest4⟩ := w
              rw [h3] at h
              simp only at h
              by_cases hup : upart = []
              · rw [if_pos hup] at h; exact absurd h (by simp)
              · rw [if_neg hup] at h
                simp only [Option.some.injEq, Prod.mk.injEq] at h
                obtain ⟨rfl, rfl, rfl⟩ := h
                obtain ⟨h2eq, h2sch⟩ := stripScheme_eq h2
                obtain ⟨h3eq, h3notmem⟩ := splitAtFirst_eq h3
                have hschnp : ')' ∉ scheme := by
                  rcases h2sch with hs | hs <;> rw [hs] <;> decide
                refine ⟨?_, hlab, hnotmem, ?_⟩
                · rw [hteq, h2eq, h3eq]; simp
                · intro hmem
                  rcases List.mem_append.mp hmem with hm | hm
                  · exact hschnp hm
                  · exact h3notmem hm

theorem stripScheme_https (r : List Char) :
    stripScheme (S "https://" ++ r) = some (S "https://", r) := rfl

theorem stripScheme_http (r : List Char) :
    stripScheme (S "http://" ++ r) = some (S "http://", r) := rfl

theorem tryMatchAt_build {lab upart sch : List Char} (rest : List Char)
    (hlab : lab ≠ []) (hlabm : ']' ∉ lab) (hup : upart ≠ [])
    (hupm : ')' ∉ upart) (hsch : sch = S "http://" ∨ sch = S "https://") :
    tryMatchAt ('[' :: (lab ++ ']' :: '(' :: (sch ++ upart ++ ')' :: rest)))
      = some (lab, sch ++ upart, rest) := by
  have hs : stripScheme (sch ++ (upart ++ ')' :: rest))
      = some (sch, upart ++ ')' :: rest) := by
    rcases hsch with rfl | rfl
    · exact stripScheme_http _
    · exact stripScheme_https _
  rw [List.append_assoc]
  simp only [tryMatchAt,
    splitAtFirst_of_notMem ('(' :: (sch ++ (upart ++ ')' :: rest))) hlabm,
    if_neg hlab, hs, splitAtFirst_of_notMem rest hupm, if_neg hup]

theorem tryMatchAt_not_lbrack {c : Char} {t : List Char} (h : c ≠ '[') :
    tryMatchAt (c :: t) = none := by
  unfold tryMatchAt
  split
  · next t' heq => exact absurd (List.cons.inj heq).1 h
  · rfl

theorem mdSearch_some :
    ∀ {l pre lab u rest : List Char},
      mdSearch l = some (pre, lab, u, rest) →
      l = pre ++ '[' :: (lab ++ ']' :: '(' :: (u ++ ')' :: rest)) ∧
        lab ≠ [] ∧ ']' ∉ lab ∧ ')' ∉ u := by
  intro l
  induction l with
  | nil => intro pre lab u rest h; simp [mdSearch] at h
  | cons c t ih =>
    intro pre lab u rest h
    rw [mdSearch] at h
    cases h1 : tryMatchAt (c :: t) with
    | some q =>
      obtain ⟨lab', u', rest'⟩ := q
      rw [h1] at h
      simp only [Option.some.injEq, Prod.mk.injEq] at h
      obtain ⟨rfl, rfl, rfl, rfl⟩ := h
      obtain ⟨heq, hl, hlm, hum⟩ := tryMatchAt_some h1
      exact ⟨by rw [heq]; simp, hl, hlm, hum⟩
    | none =>
      rw [h1] at h
      cases h2 : mdSearch t with
      | none => rw [h2] at h; simp at h
      | some q =>
        obtain ⟨pre', lab', u', rest'⟩ := q
        rw [h2] at h
        simp only [Option.some.injEq, Prod.mk.injEq] at h
        obtain ⟨rfl, rfl, rfl, rfl⟩ := h
        obtain ⟨heq, hl, hlm, hum⟩ := ih h2
        exact ⟨by rw [heq]; simp, hl, hlm, hum⟩

theorem mdSearch_none_of_no_paren {l : List Char} (h : ')' ∉ l) :
    mdSearch l = none := by
  cases hm : mdSearch l with
  | none => rfl
  | some q =>
    obtain ⟨pre, lab, u, rest⟩ := q
    obtain ⟨heq, -, -, -⟩ := mdSearch_some hm
    exact absurd (by rw [heq]; simp : ')' ∈ l) h

theorem extract_url_no_md {s pre lab u rest : List Char}
    (h : mdSearch s = some (pre, lab, u, rest)) : hasMd u = false := by
  obtain ⟨-, -, -, hum⟩ := mdSearch_some h
  unfold hasMd
  rw [mdSearch_none_of_no_paren hum]
  rfl

theorem normalizeStr_no_md (s : List Char) :
    hasMd (normalizeStr s) = false := by
  unfold normalizeStr
  set v := if htmlLooking s then fix_html_links s else s with hv
  cases hmd : hasMd v with
  | false => simp [hmd]
  | true =>
    simp only [hmd, if_true]
    unfold extract_plain_url
    cases hm : mdSearch v with
    | none => unfold hasMd at hmd; rw [hm] at hmd; simp at hmd
    | some q =>
      obtain ⟨pre, lab, u, rest⟩ := q
      exact extract_url_no_md hm

theorem mdSearch_none_cons {c : Char} {t : List Char}
    (h : mdSearch (c :: t) = none) :
    tryMatchAt (c :: t) = none ∧ mdSearch t = none := by
  rw [mdSearch] at h
  cases h1 : tryMatchAt (c :: t) with
  | some q => obtain ⟨a, b, r⟩ := q; rw [h1] at h; simp at h
  | none =>
    rw [h1] at h
    cases h2 : mdSearch t with
    | some q => obtain ⟨p, a, b, r⟩ := q; rw [h2] at h; simp at h
    | none => exact ⟨rfl, rfl⟩

theorem mdSubFuel_of_none (repl : List Char → List Char → List Char) :
    ∀ (f : Nat) (l : List Char), mdSearch l = none → mdSubFuel repl f l = l := by
  intro f
  induction f with
  | zero => intro l _; cases l <;> rfl
  | succ n ih =>
    intro l h
    cases l with
    | nil => rfl
    | cons c t =>
      obtain ⟨h1, h2⟩ := mdSearch_none_cons h
      rw [mdSubFuel, h1]
      rw [ih t h2]

theorem mdSearch_append_none {pre : List Char} (l : List Char)
    (hpre : '[' ∉ pre) (h : mdSearch l = none) :
    mdSearch (pre ++ l) = none := by
  induction pre with
  | nil => simpa using h
  | cons c t ih =>
    have hc : c ≠ '[' := fun hh => hpre (by simp [hh])
    have ht : '[' ∉ t := fun hh => hpre (by simp [hh])
    rw [List.cons_append, mdSearch, tryMatchAt_not_lbrack hc, ih ht]

theorem mdSearch_append_some {pre l p a b r : List Char}
    (hpre : '[' ∉ pre) (h : mdSearch l = some (p, a, b, r)) :
    mdSearch (pre ++ l) = some (pre ++ p, a, b, r) := by
  induction pre with
  | nil => simpa using h
  | cons c t ih =>
    have hc : c ≠ '[' := fun hh => hpre (by simp [hh])
    have ht : '[' ∉ t := fun hh => hpre (by simp [hh])
    rw [List.cons_append, mdSearch, tryMatchAt_not_lbrack hc, ih ht]
    rfl

theorem fix_html_links_of_none {s : List Char} (h : mdSearch s = none) :
    fix_html_links s = s :=
  mdSubFuel_of_none anchorRepl s.length s h

theorem normalizeStr_of_none {s : List Char} (hh : htmlLooking s = false)
    (hm : hasMd s = false) : normalizeStr s = s := by
  unfold normalizeStr
  simp [hh, hm]

theorem mdSearch_none_of_hasMd_false {s : List Char} (h : hasMd s = false) :
    mdSearch s = none := by
  unfold hasMd at h
  cases hm : mdSearch s with
  | none => rfl
  | some q => rw [hm] at h; simp at h

/-! Lemmas about the recursive walker and the final safety check. -/

theorem keysOf_fixObj : ∀ kvs : JsonObj, keysOf (fixObj kvs) = keysOf kvs
  | .nil => rfl
  | .cons _ _ t => by simp [fixObj, keysOf, keysOf_fixObj t]

theorem lookupKey_fixObj (key : List Char) :
    ∀ kvs : JsonObj,
      lookupKey (fixObj kvs) key = (lookupKey kvs key).map fix_value
  | .nil => rfl
  | .cons k v t => by
    by_cases hk : k = key
    · simp [fixObj, lookupKey, hk]
    · simp [fixObj, lookupKey, hk, lookupKey_fixObj key t]

theorem arrLen_fixArr : ∀ l : JsonArr, arrLen (fixArr l) = arrLen l
  | .nil => rfl
  | .cons _ t => by simp [fixArr, arrLen, arrLen_fixArr t]

theorem arrGet_fixArr :
    ∀ (l : JsonArr) (n : Nat), arrGet (fixArr l) n = (arrGet l n).map fix_value
  | .nil, _ => rfl
  | .cons _ _, 0 => rfl
  | .cons _ t, n + 1 => by simpa [fixArr, arrGet] using arrGet_fixArr t n

mutual
theorem contains_markdown_fix (v : Json) :
    contains_markdown (fix_value v) = false := by
  cases v with
  | str s => simpa [fix_value, contains_markdown] using normalizeStr_no_md s
  | num n => rfl
  | bool b => rfl
  | null => rfl
  | arr l => simpa [fix_value, contains_markdown] using cmArr_fix l
  | obj kvs => simpa [fix_value, contains_markdown] using cmObj_fix kvs

theorem cmArr_fix (l : JsonArr) : cmArr (fixArr l) = false := by
  cases l with
  | nil => rfl
  | cons v t => simp [fixArr, cmArr, contains_markdown_fix v, cmArr_fix t]

theorem cmObj_fix (kvs : JsonObj) : cmObj (fixObj kvs) = false := by
  cases kvs with
  | nil => rfl
  | cons k v t => simp [fixObj, cmObj, contains_markdown_fix v, cmObj_fix t]
end

/-! Lemmas about the endpoint. -/

theorem validate_ok {p : JsonObj} (h : jobsOk p = true) :
    validate_and_fix_job_json p
      = .ok (Json.obj (.cons (S "status") (.str (S "ok"))
          (.cons (S "fixed_json") (fix_value (Json.obj p)) .nil))) := by
  unfold validate_and_fix_job_json
  rw [h]
  simp [contains_markdown_fix]

theorem validate_error_of_not_jobsOk {p : JsonObj} (h : jobsOk p = false) :
    validate_and_fix_job_json p
      = .error (422, S "Invalid JSON: missing 'jobs' array") := by
  unfold validate_and_fix_job_json
  rw [h]
  rfl

/-! Claim theorems. -/

/-- C1 counterexample: the spec claims every non-matching part of the
string is passed through unchanged, but on `"see [b](https://c) now"` the
normalizer returns just `"https://c"`, not `"see https://c now"`. -/
theorem markdown_flatten_claim_false :
    normalizeStr (S "see [b](https://c) now") = S "https://c" ∧
    (normalizeStr (S "see [b](https://c) now") == S "see https://c now")
      = false := by
  decide

/-- C1 (amended): when a string that does not look like HTML contains a
markdown link, the normalizer returns only the URL (group 2) of the first
match; the label, the text before the match, any text after it, and any
further links are all discarded. -/
theorem markdown_flatten_first_url {pre lab upart post sch : List Char}
    (hpre : '[' ∉ pre) (hlab : lab ≠ []) (hlabm : ']' ∉ lab)
    (hup : upart ≠ []) (hupm : ')' ∉ upart)
    (hsch : sch = S "http://" ∨ sch = S "https://")
    (hhtml : htmlLooking
      (pre ++ '[' :: (lab ++ ']' :: '(' :: (sch ++ upart ++ ')' :: post)))
        = false) :
    normalizeStr
      (pre ++ '[' :: (lab ++ ']' :: '(' :: (sch ++ upart ++ ')' :: post)))
        = sch ++ upart := by
  have hm := tryMatchAt_build post hlab hlabm hup hupm hsch
  have hsearch :
      mdSearch ('[' :: (lab ++ ']' :: '(' :: (sch ++ upart ++ ')' :: post)))
        = some ([], lab, sch ++ upart, post) := by
    rw [mdSearch, hm]
  have hfull := mdSearch_append_some hpre hsearch
  unfold normalizeStr
  rw [hhtml]
  simp only [Bool.false_eq_true, if_false]
  unfold hasMd extract_plain_url
  rw [hfull]
  simp

/-- Witness for C1 (amended) at `"see [b](https://c) now"`. -/
theorem markdown_flatten_first_url_witness :
    normalizeStr (S "see "
        ++ '[' :: (S "b" ++ ']' :: '(' :: (S "https://" ++ S "c" ++ ')' :: S " now")))
      = S "https://" ++ S "c" :=
  markdown_flatten_first_url (by decide) (by decide) (by decide) (by decide)
    (by decide) (Or.inr rfl) (by decide)

/-- C2: the string-leaf normalization is idempotent,
`normalize(normalize(s)) = normalize(s)` for every string `s`. -/
theorem normalize_idempotent (s : List Char) :
    normalizeStr (normalizeStr s) = normalizeStr s := by
  set r := normalizeStr s with hr
  have hmd : hasMd r = false := by rw [hr]; exact normalizeStr_no_md s
  have hfix : fix_html_links r = r :=
    fix_html_links_of_none (mdSearch_none_of_hasMd_false hmd)
  unfold normalizeStr
  simp [hfix, hmd]

/-- C3: the recursive walker preserves structure: objects keep their key
list (hence key set and key order) with each value recursively
transformed, arrays keep their length and each position holds the
transform of the original element, string leaves get the leaf transform,
and number, boolean and null leaves are returned unchanged. -/
theorem fix_value_preserves_structure :
    (∀ kvs, fix_value (Json.obj kvs) = Json.obj (fixObj kvs)
      ∧ keysOf (fixObj kvs) = keysOf kvs
      ∧ ∀ k, lookupKey (fixObj kvs) k = (lookupKey kvs k).map fix_value) ∧
    (∀ l, fix_value (Json.arr l) = Json.arr (fixArr l)
      ∧ arrLen (fixArr l) = arrLen l
      ∧ ∀ n, arrGet (fixArr l) n = (arrGet l n).map fix_value) ∧
    (∀ s, fix_value (Json.str s) = Json.str (normalizeStr s)) ∧
    (∀ n, fix_value (Json.num n) = Json.num n) ∧
    (∀ b, fix_value (Json.bool b) = Json.bool b) ∧
    fix_value Json.null = Json.null :=
  ⟨fun kvs => ⟨rfl, keysOf_fixObj kvs, fun k => lookupKey_fixObj k kvs⟩,
    fun l => ⟨rfl, arrLen_fixArr l, fun n => arrGet_fixArr l n⟩,
    fun _ => rfl, fun _ => rfl, fun _ => rfl, rfl⟩

/-- C4 counterexample: the spec claims `href="[U](U)"` is rewritten to
`href="U"`, but the code returns the bare `U`, dropping the `href="` text
around it. -/
theorem anchor_repair_claim_false :
    normalizeStr (S "href=\"[https://x.test/a](https://x.test/a)\"")
        = S "https://x.test/a" ∧
    (normalizeStr (S "href=\"[https://x.test/a](https://x.test/a)\"")
        == S "href=\"https://x.test/a\"") = false := by
  decide

/-- C4 (amended): there is no HTML-anchor repair rule; on
`href="[https://x.test/a](https://x.test/a)"` (which does not contain an
HTML trigger substring) the markdown rule fires and the whole string is
replaced by the bare URL `https://x.test/a`. -/
theorem anchor_repair_actual :
    normalizeStr (S "href=\"[https://x.test/a](https://x.test/a)\"")
      = S "https://x.test/a" := by
  decide

/-- C5 counterexample: the spec claims `<https://x.test/a>` is flattened
to `https://x.test/a`, but the code leaves it unchanged (there is no
angle-bracket rule). -/
theorem angle_flatten_claim_false :
    normalizeStr (S "<https://x.test/a>") = S "<https://x.test/a>" ∧
    (normalizeStr (S "<https://x.test/a>") == S "https://x.test/a")
      = false := by
  decide

/-- C5 (amended): the normalizer has no angle-bracket rule: any string
with no HTML trigger substring and no markdown-link match — in particular
an angle-bracketed URL — passes through unchanged. -/
theorem non_match_passthrough (s : List Char) (hh : htmlLooking s = false)
    (hm : hasMd s = false) : normalizeStr s = s :=
  normalizeStr_of_none hh hm

/-- Witness for C5 (amended) at `"<https://x.test/a>"`. -/
theorem non_match_passthrough_witness :
    htmlLooking (S "<https://x.test/a>") = false ∧
    hasMd (S "<https://x.test/a>") = false ∧
    normalizeStr (S "<https://x.test/a>") = S "<https://x.test/a>" :=
  ⟨by decide, by decide, non_match_passthrough _ (by decide) (by decide)⟩

/-- C6 counterexample: the spec claims every markdown link in an
HTML-looking string is wrapped into a full anchor tag, but on
`"<p>[a [b](https://c) d](https://e)"` the final output is the bare
`"https://e"`, which contains no anchor tag at all: after the sub step the
reinserted label still matches the markdown pattern, so the whole string
is collapsed to that match's URL. -/
theorem html_anchor_claim_false :
    normalizeStr (S "<p>[a [b](https://c) d](https://e)") = S "https://e" ∧
    hasSub (S "<a") (normalizeStr (S "<p>[a [b](https://c) d](https://e)"))
      = false := by
  decide

/-- C6 (amended): only HTML-looking strings get the anchor-wrapping sub
(`fix_html_links`), and its result is the final output whenever it no
longer matches the markdown pattern; strings without an HTML trigger skip
the wrapping entirely and only go through the markdown-extraction step. -/
theorem html_anchor_gating (s : List Char) :
    (htmlLooking s = true → hasMd (fix_html_links s) = false →
      normalizeStr s = fix_html_links s) ∧
    (htmlLooking s = false →
      normalizeStr s = if hasMd s then extract_plain_url s else s) := by
  constructor
  · intro h1 h2
    unfold normalizeStr
    simp [h1, h2]
  · intro h1
    unfold normalizeStr
    simp [h1]

/-- Witness for C6 (amended) at `"<p>[a](https://b)"`. -/
theorem html_anchor_gating_witness :
    normalizeStr (S "<p>[a](https://b)")
      = fix_html_links (S "<p>[a](https://b)") :=
  (html_anchor_gating _).1 (by decide) (by decide)

/-- C7 counterexample: the spec claims a document whose `jobs` field is
present but not a list short-circuits non-fatally with one warning, but
the endpoint rejects such a payload with HTTP 422 and produces no
warnings at all. -/
theorem jobs_warning_claim_false :
    validate_and_fix_job_json (JsonObj.cons (S "jobs") (Json.num 7) JsonObj.nil)
      = .error (422, S "Invalid JSON: missing 'jobs' array") := rfl

/-- C7 (amended): when `jobs` is present but bound to a non-list value,
the endpoint rejects the request with HTTP 422 and detail
`Invalid JSON: missing 'jobs' array`; there is no warning mechanism. -/
theorem jobs_reject {p : JsonObj} {v : Json}
    (hl : lookupKey p (S "jobs") = some v) (hv : ∀ l, v ≠ Json.arr l) :
    validate_and_fix_job_json p
      = .error (422, S "Invalid JSON: missing 'jobs' array") := by
  apply validate_error_of_not_jobsOk
  unfold jobsOk
  rw [hl]
  cases v with
  | arr l => exact absurd rfl (hv l)
  | str s => rfl
  | num n => rfl
  | bool b => rfl
  | null => rfl
  | obj o => rfl

/-- Witness for C7 (amended) at a payload whose `jobs` field is a string. -/
theorem jobs_reject_witness :
    validate_and_fix_job_json
        (JsonObj.cons (S "jobs") (Json.str (S "x")) JsonObj.nil)
      = .error (422, S "Invalid JSON: missing 'jobs' array") :=
  jobs_reject rfl (fun _ h => Json.noConfusion h)

/-- C8 counterexample: the spec claims validation warns on a `job_link`
that does not start with `https://` and again on one containing markup
characters, but the endpoint accepts such a payload with plain `ok` and
an unchanged document — it contains no `job_link` inspection at all. -/
theorem job_link_warning_claim_false :
    validate_and_fix_job_json badLinkPayload
      = .ok (Json.obj (.cons (S "status") (.str (S "ok"))
          (.cons (S "fixed_json") (Json.obj badLinkPayload) .nil))) := rfl

/-- C8 (amended): the endpoint never inspects `acf.job_link` and has no
warnings: for every payload whose `jobs` field is a list the response is
exactly `status: ok` plus the auto-fixed document. -/
theorem job_link_no_warnings (p : JsonObj) (h : jobsOk p = true) :
    validate_and_fix_job_json p
      = .ok (Json.obj (.cons (S "status") (.str (S "ok"))
          (.cons (S "fixed_json") (fix_value (Json.obj p)) .nil))) :=
  validate_ok h

/-- Witness for C8 (amended) at a payload containing a markdown link. -/
theorem job_link_no_warnings_witness :
    validate_and_fix_job_json
        (JsonObj.cons (S "jobs")
          (Json.arr (JsonArr.cons (Json.str (S "[a](https://b)")) JsonArr.nil))
          JsonObj.nil)
      = .ok (Json.obj (.cons (S "status") (.str (S "ok"))
          (.cons (S "fixed_json")
            (fix_value (Json.obj (JsonObj.cons (S "jobs")
              (Json.arr (JsonArr.cons (Json.str (S "[a](https://b)"))
                JsonArr.nil))
              JsonObj.nil)))
            .nil))) :=
  job_link_no_warnings _ rfl

/-- C9 counterexample: the spec claims every document with no residual
markdown-link match succeeds, but a markdown-free document without a
`jobs` list is rejected with the `jobs` error. -/
theorem strict_success_claim_false :
    contains_markdown (fix_value (Json.obj
        (JsonObj.cons (S "category_slug") (Json.str (S "joblisting"))
          JsonObj.nil))) = false ∧
    validate_and_fix_job_json
        (JsonObj.cons (S "category_slug") (Json.str (S "joblisting"))
          JsonObj.nil)
      = .error (422, S "Invalid JSON: missing 'jobs' array") :=
  ⟨rfl, rfl⟩

/-- C9 (amended): processing succeeds exactly when the `jobs` field is a
list; the residual-markdown rejection never fires (auto-fix removes every
match), and documents without a `jobs` list fail with the `jobs` error
even when markdown-free. -/
theorem strict_success_iff_jobs (p : JsonObj) :
    (∃ r, validate_and_fix_job_json p = .ok r) ↔ jobsOk p = true := by
  constructor
  · rintro ⟨r, hr⟩
    cases hj : jobsOk p with
    | true => rfl
    | false =>
      rw [validate_error_of_not_jobsOk hj] at hr
      exact Except.noConfusion hr
  · intro h
    exact ⟨_, validate_ok h⟩

/-- Witness for C9 (amended) at a payload with an empty `jobs` list. -/
theorem strict_success_iff_jobs_witness :
    ∃ r, validate_and_fix_job_json
        (JsonObj.cons (S "jobs") (Json.arr JsonArr.nil) JsonObj.nil)
      = .ok r :=
  (strict_success_iff_jobs _).mpr rfl

/-- C10: after the auto-fix pass no string value anywhere in the result
matches the markdown-link pattern, so the endpoint's 422 branch
`Markdown URL detected after auto-fix` is unreachable. -/
theorem no_residual_markdown :
    (∀ v, contains_markdown (fix_value v) = false) ∧
    (∀ p, isMdError (validate_and_fix_job_json p) = false) := by
  refine ⟨contains_markdown_fix, fun p => ?_⟩
  cases hj : jobsOk p with
  | true => rw [validate_ok hj]; rfl
  | false => rw [validate_error_of_not_jobsOk hj]; decide
